import Mathlib

/-! Verification of the output-name resolution algorithm of trimshare
(`src/trimshare/trimshare.py`, function `infer_out_video_name`).

Strings are modelled as lists of characters, the filesystem as the
existence predicate queried by `Path(...).exists()`, and the local clock
as an explicit record passed to the resolver (the Python code reads it
via `datetime.now()` inside the function).  The resolver is embedded
together with the list of filesystem operations it performs, so that the
frame and idempotence properties can be stated. -/

namespace TrimShare

/-- A Python string, modelled as its list of characters. -/
abbrev Str := List Char

/-- The filesystem snapshot: the set of paths at which `Path(p).exists()`
answers true. -/
abbrev FS := Str → Bool

/-- Python `s.split(".")`: cut the string at every occurrence of `'.'`;
`n` dots give `n + 1` (possibly empty) pieces. -/
def splitOnDot : Str → List Str
  | [] => [[]]
  | c :: rest =>
    if c = '.' then [] :: splitOnDot rest
    else
      match splitOnDot rest with
      | [] => [[c]]
      | s :: ss => (c :: s) :: ss

/-- Python `".".join(parts)`: interleave the pieces with single dots. -/
def intercalateDot : List Str → Str
  | [] => []
  | [s] => s
  | s :: ss => s ++ '.' :: intercalateDot ss

/-- Lines 63-65 of `trimshare.py`:
`if "." in inname: inname = ".".join(inname.split(".")[:-1])` —
drop the final dot-separated segment when the name contains a dot. -/
def stripExt (inname : Str) : Str :=
  if '.' ∈ inname then intercalateDot (splitOnDot inname).dropLast else inname

/-- A local date-time, as produced by `datetime.now()`. -/
structure DateTime where
  year : Nat
  month : Nat
  day : Nat
  hour : Nat
  minute : Nat
  second : Nat

/-- Decimal digits of `n`, left-padded with `'0'` to width `w`. -/
def padZeros (w n : Nat) : Str :=
  let ds := Nat.toDigits 10 n
  List.replicate (w - ds.length) '0' ++ ds

/-- CPython `datetime.strftime` applied to the fixed format string
`"%Y-%m-%d-%H%M%S"` used on line 70 of `trimshare.py`: zero-padded year,
month and day separated by dashes, then hour, minute and second run
together. -/
def strftimeYmdHMS (t : DateTime) : Str :=
  padZeros 4 t.year ++ ['-'] ++ padZeros 2 t.month ++ ['-'] ++ padZeros 2 t.day
    ++ ['-'] ++ padZeros 2 t.hour ++ padZeros 2 t.minute ++ padZeros 2 t.second

/-- The literal `".webm"` appended on lines 67 and 71. -/
def webmExt : Str := ".webm".toList

/-- The literal `"-trimshare-"` inserted on line 71. -/
def trimsharePart : Str := "-trimshare-".toList

/-- A filesystem operation.  The resolver only ever performs existence
checks; creations and deletions are included so that leaving the
filesystem unchanged is a statement, not a tautology. -/
inductive FsOp where
  | existsCheck (name : Str)
  | createFile (name : Str)
  | removeFile (name : Str)

/-- True exactly for the read-only operation. -/
def FsOp.isRead : FsOp → Bool
  | .existsCheck _ => true
  | _ => false

/-- Effect of one filesystem operation on the snapshot. -/
def applyFsOp (fs : FS) : FsOp → FS
  | .existsCheck _ => fs
  | .createFile n => fun m => if m = n then true else fs m
  | .removeFile n => fun m => if m = n then false else fs m

/-- The two failures `infer_out_video_name` can raise: `FileExistsError`
("Output video must be different from the input video", the spec's
NameCollision) and `NameError` ("Could not automatically generate a safe
file name", the spec's NameGenerationExhausted). -/
inductive InferError where
  | fileExistsError
  | nameError
deriving DecidableEq

/-- Lines 41-79 of `trimshare.py`, `infer_out_video_name`, paired with
the list of filesystem operations the call performs, in order:

* `outname` given: raise `FileExistsError` when it equals `inname`,
  otherwise return it unchanged — no filesystem access;
* `outname` absent: strip the extension, append `".webm"`; if that path
  exists, build `{base}-trimshare-{now}.webm` from the current clock and
  return it unless it exists too, in which case raise `NameError`. -/
def infer_run (fs : FS) (now : DateTime) (outname : Option Str) (inname : Str) :
    Except InferError Str × List FsOp :=
  match outname with
  | some o =>
    if o = inname then (.error .fileExistsError, [])
    else (.ok o, [])
  | none =>
    let base := stripExt inname
    let conv_name := base ++ webmExt
    if fs conv_name then
      let now_s := strftimeYmdHMS now
      let safer_name := base ++ trimsharePart ++ now_s ++ webmExt
      if fs safer_name then
        (.error .nameError, [.existsCheck conv_name, .existsCheck safer_name])
      else
        (.ok safer_name, [.existsCheck conv_name, .existsCheck safer_name])
    else
      (.ok conv_name, [.existsCheck conv_name])

/-- The result of `infer_out_video_name`: the first component of the run. -/
def infer_out_video_name (fs : FS) (now : DateTime) (outname : Option Str)
    (inname : Str) : Except InferError Str :=
  (infer_run fs now outname inname).1

/-! Basic facts about splitting and joining on dots. -/

theorem splitOnDot_ne_nil (s : Str) : splitOnDot s ≠ [] := by
  induction s with
  | nil => simp [splitOnDot]
  | cons c rest ih =>
    simp only [splitOnDot]
    split
    · exact List.cons_ne_nil _ _
    · split
      · exact List.cons_ne_nil _ _
      · exact List.cons_ne_nil _ _

theorem splitOnDot_cons_ne_dot (c : Char) (rest : Str) (hc : c ≠ '.') :
    ∀ s ss, splitOnDot rest = s :: ss → splitOnDot (c :: rest) = (c :: s) :: ss := by
  intro s ss h
  simp only [splitOnDot, if_neg hc, h]

theorem splitOnDot_append_dot (a b : Str) :
    splitOnDot (a ++ '.' :: b) = splitOnDot a ++ splitOnDot b := by
  induction a with
  | nil => simp [splitOnDot]
  | cons c a' ih =>
    by_cases hc : c = '.'
    · subst hc
      simp [List.cons_append, splitOnDot, ih]
    · obtain ⟨s, ss, hs⟩ : ∃ s ss, splitOnDot a' = s :: ss := by
        cases h : splitOnDot a' with
        | nil => exact absurd h (splitOnDot_ne_nil a')
        | cons x xs => exact ⟨x, xs, rfl⟩
      have hsplit : splitOnDot (a' ++ '.' :: b) = s :: (ss ++ splitOnDot b) := by
        rw [ih, hs]; rfl
      rw [List.cons_append, splitOnDot_cons_ne_dot c _ hc _ _ hsplit,
        splitOnDot_cons_ne_dot c a' hc s ss hs]
      rfl

theorem splitOnDot_of_not_mem (s : Str) (h : '.' ∉ s) : splitOnDot s = [s] := by
  induction s with
  | nil => rfl
  | cons c rest ih =>
    have hc : c ≠ '.' := fun hc => h (hc ▸ List.mem_cons_self c rest)
    have hrest : '.' ∉ rest := fun hm => h (List.mem_cons_of_mem c hm)
    exact splitOnDot_cons_ne_dot c rest hc rest [] (ih hrest)

theorem intercalateDot_splitOnDot (s : Str) : intercalateDot (splitOnDot s) = s := by
  induction s with
  | nil => rfl
  | cons c rest ih =>
    obtain ⟨x, xs, hx⟩ : ∃ x xs, splitOnDot rest = x :: xs := by
      cases h : splitOnDot rest with
      | nil => exact absurd h (splitOnDot_ne_nil rest)
      | cons y ys => exact ⟨y, ys, rfl⟩
    by_cases hc : c = '.'
    · subst hc
      rw [show splitOnDot ('.' :: rest) = [] :: splitOnDot rest from rfl, hx]
      rw [hx] at ih
      cases xs with
      | nil => rw [show intercalateDot [[], x] = '.' :: x from rfl]
               rw [show intercalateDot [x] = x from rfl] at ih
               rw [ih]
      | cons y ys =>
        rw [show intercalateDot ([] :: x :: y :: ys) =
          '.' :: intercalateDot (x :: y :: ys) from rfl, ih]
    · rw [splitOnDot_cons_ne_dot c rest hc x xs hx]
      rw [hx] at ih
      cases xs with
      | nil => rw [show intercalateDot [c :: x] = c :: x from rfl]
               rw [show intercalateDot [x] = x from rfl] at ih
               rw [ih]
      | cons y ys =>
        rw [show intercalateDot ((c :: x) :: y :: ys) =
          (c :: x) ++ '.' :: intercalateDot (y :: ys) from rfl]
        rw [show intercalateDot (x :: y :: ys) =
          x ++ '.' :: intercalateDot (y :: ys) from rfl] at ih
        rw [List.cons_append, ih]

theorem stripExt_of_not_mem (s : Str) (h : '.' ∉ s) : stripExt s = s := by
  rw [stripExt, if_neg h]

theorem stripExt_last_dot (pre seg : Str) (hseg : '.' ∉ seg) :
    stripExt (pre ++ '.' :: seg) = pre := by
  have hmem : '.' ∈ pre ++ '.' :: seg :=
    List.mem_append_right pre (List.mem_cons_self '.' seg)
  rw [stripExt, if_pos hmem, splitOnDot_append_dot, splitOnDot_of_not_mem seg hseg]
  rw [List.dropLast_concat, intercalateDot_splitOnDot]

theorem exists_last_dot_decomp (s : Str) (h : '.' ∈ s) :
    ∃ pre seg, s = pre ++ '.' :: seg ∧ '.' ∉ seg := by
  induction s with
  | nil => exact absurd h (List.not_mem_nil '.')
  | cons c rest ih =>
    by_cases hrest : '.' ∈ rest
    · obtain ⟨pre, seg, heq, hseg⟩ := ih hrest
      exact ⟨c :: pre, seg, by rw [heq, List.cons_append], hseg⟩
    · have hc : c = '.' := by
        rcases List.mem_cons.mp h with h1 | h1
        · exact h1.symm
        · exact absurd h1 hrest
      exact ⟨[], rest, by rw [hc, List.nil_append], hrest⟩

/-! Unfolding equations for the resolver, one per branch shape. -/

theorem infer_run_some (fs : FS) (now : DateTime) (o inname : Str) :
    infer_run fs now (some o) inname =
      if o = inname then (.error .fileExistsError, [])
      else (.ok o, []) := rfl

theorem infer_run_none (fs : FS) (now : DateTime) (inname : Str) :
    infer_run fs now none inname =
      (if fs (stripExt inname ++ webmExt) then
        if fs (stripExt inname ++ trimsharePart ++ strftimeYmdHMS now ++ webmExt) then
          (.error .nameError,
            [.existsCheck (stripExt inname ++ webmExt),
             .existsCheck (stripExt inname ++ trimsharePart ++ strftimeYmdHMS now ++ webmExt)])
        else
          (.ok (stripExt inname ++ trimsharePart ++ strftimeYmdHMS now ++ webmExt),
            [.existsCheck (stripExt inname ++ webmExt),
             .existsCheck (stripExt inname ++ trimsharePart ++ strftimeYmdHMS now ++ webmExt)])
      else
        (.ok (stripExt inname ++ webmExt), [.existsCheck (stripExt inname ++ webmExt)])) := rfl

/-! Helper facts about the generated names and the operation trace. -/

theorem append_ne_self_of_ne_nil (s t : Str) (ht : t ≠ []) : s ++ t ≠ s := by
  intro h
  have hl : s.length + t.length = s.length := by
    simpa using congrArg List.length h
  have : t.length = 0 := by omega
  exact ht (List.length_eq_zero.mp this)

theorem trimsharePart_ne_nil : trimsharePart ≠ [] := by decide

theorem fallback_ne_input (s ts : Str) :
    stripExt s ++ trimsharePart ++ ts ++ webmExt ≠ s := by
  rw [List.append_assoc, List.append_assoc]
  by_cases h : '.' ∈ s
  · obtain ⟨pre, seg, heq, hseg⟩ := exists_last_dot_decomp s h
    rw [heq, stripExt_last_dot pre seg hseg]
    intro hbad
    have htail : trimsharePart ++ (ts ++ webmExt) = '.' :: seg :=
      List.append_cancel_left hbad
    rcases List.append_eq_cons_iff.mp htail with ⟨h1, _⟩ | ⟨a', h1, _⟩
    · exact absurd h1 trimsharePart_ne_nil
    · have h2 : trimsharePart.head? = some '.' := by rw [h1]; rfl
      exact absurd h2 (by decide)
  · rw [stripExt_of_not_mem s h]
    exact append_ne_self_of_ne_nil s _
      (fun hnil => trimsharePart_ne_nil (List.append_eq_nil.mp hnil).1)

theorem trace_noop (fs : FS) (now : DateTime) (outname : Option Str) (inname : Str) :
    (infer_run fs now outname inname).2.foldl applyFsOp fs = fs := by
  cases outname with
  | some o =>
    rw [infer_run_some]
    by_cases h : o = inname
    · rw [if_pos h]; rfl
    · rw [if_neg h]; rfl
  | none =>
    rw [infer_run_none]
    by_cases h1 : fs (stripExt inname ++ webmExt) = true
    · rw [if_pos h1]
      by_cases h2 :
          fs (stripExt inname ++ trimsharePart ++ strftimeYmdHMS now ++ webmExt) = true
      · rw [if_pos h2]; rfl
      · rw [if_neg h2]; rfl
    · rw [if_neg h1]; rfl

theorem trace_all_reads (fs : FS) (now : DateTime) (outname : Option Str) (inname : Str) :
    ∀ op ∈ (infer_run fs now outname inname).2, op.isRead = true := by
  intro op hop
  cases outname with
  | some o =>
    rw [infer_run_some] at hop
    by_cases h : o = inname
    · rw [if_pos h] at hop; exact absurd hop (List.not_mem_nil op)
    · rw [if_neg h] at hop; exact absurd hop (List.not_mem_nil op)
  | none =>
    rw [infer_run_none] at hop
    by_cases h1 : fs (stripExt inname ++ webmExt) = true
    · rw [if_pos h1] at hop
      by_cases h2 :
          fs (stripExt inname ++ trimsharePart ++ strftimeYmdHMS now ++ webmExt) = true
      · rw [if_pos h2] at hop
        rcases List.mem_cons.mp hop with h3 | h3
        · rw [h3]; rfl
        · rcases List.mem_cons.mp h3 with h4 | h4
          · rw [h4]; rfl
          · exact absurd h4 (List.not_mem_nil op)
      · rw [if_neg h2] at hop
        rcases List.mem_cons.mp hop with h3 | h3
        · rw [h3]; rfl
        · rcases List.mem_cons.mp h3 with h4 | h4
          · rw [h4]; rfl
          · exact absurd h4 (List.not_mem_nil op)
    · rw [if_neg h1] at hop
      rcases List.mem_cons.mp hop with h3 | h3
      · rw [h3]; rfl
      · exact absurd h3 (List.not_mem_nil op)

/-- C1: in auto-generate mode, when the primary candidate `stem.webm` does
not exist on the filesystem, the resolver returns `stem.webm`; moreover the
stem strips exactly the final dot-separated segment of the input (all
earlier dots preserved), keeps dot-free inputs unchanged, and every input
is of one of those two shapes. -/
theorem c1_auto_primary (fs : FS) (now : DateTime) :
    (∀ inname : Str, fs (stripExt inname ++ webmExt) = false →
      infer_out_video_name fs now none inname = .ok (stripExt inname ++ webmExt))
    ∧ (∀ pre seg : Str, '.' ∉ seg → stripExt (pre ++ '.' :: seg) = pre)
    ∧ (∀ s : Str, '.' ∉ s → stripExt s = s)
    ∧ (∀ s : Str, '.' ∈ s → ∃ pre seg, s = pre ++ '.' :: seg ∧ '.' ∉ seg) := by
  refine ⟨?_, stripExt_last_dot, stripExt_of_not_mem, exists_last_dot_decomp⟩
  intro inname h
  simp only [infer_out_video_name]
  rw [infer_run_none, if_neg (by simp [h])]

/-- Witness for C1 at the multi-dot input of the test suite. -/
theorem c1_auto_primary_witness :
    infer_out_video_name (fun _ => false) ⟨2001, 1, 1, 1, 1, 1⟩ none
      ("my.special.video.mp4".toList) = .ok ("my.special.video.webm".toList) :=
  ((c1_auto_primary (fun _ => false) ⟨2001, 1, 1, 1, 1, 1⟩).1
    ("my.special.video.mp4".toList) rfl).trans (congrArg Except.ok (by decide))

/-- C2: in auto-generate mode, when `stem.webm` exists but the
timestamp-qualified candidate does not, the resolver returns
`stem-trimshare-TS.webm` where `TS` formats the current clock reading;
the format is `YYYY-MM-DD-HHMMSS` with zero-padded fields, e.g.
`2001-01-01-010101` for Jan 1 2001, 01:01:01. -/
theorem c2_auto_fallback (fs : FS) (now : DateTime) :
    (∀ inname : Str,
      fs (stripExt inname ++ webmExt) = true →
      fs (stripExt inname ++ trimsharePart ++ strftimeYmdHMS now ++ webmExt) = false →
      infer_out_video_name fs now none inname =
        .ok (stripExt inname ++ trimsharePart ++ strftimeYmdHMS now ++ webmExt))
    ∧ strftimeYmdHMS ⟨2001, 1, 1, 1, 1, 1⟩ = "2001-01-01-010101".toList := by
  constructor
  · intro inname h1 h2
    simp only [infer_out_video_name]
    rw [infer_run_none, if_pos h1, if_neg (by rw [h2]; decide)]
  · decide

/-- Witness for C2: only `vid.webm` exists, frozen clock Jan 1 2001
01:01:01. -/
theorem c2_auto_fallback_witness :
    infer_out_video_name (fun n => n == ("vid.webm".toList)) ⟨2001, 1, 1, 1, 1, 1⟩ none
      ("vid.mp4".toList) = .ok ("vid-trimshare-2001-01-01-010101.webm".toList) :=
  ((c2_auto_fallback (fun n => n == ("vid.webm".toList)) ⟨2001, 1, 1, 1, 1, 1⟩).1
    ("vid.mp4".toList) (by decide) (by decide)).trans (congrArg Except.ok (by decide))

/-- C3: in auto-generate mode, when both `stem.webm` and the
timestamp-qualified candidate at the current clock reading exist, the
resolver fails with the `NameError` (NameGenerationExhausted). -/
theorem c3_exhausted (fs : FS) (now : DateTime) (inname : Str)
    (h1 : fs (stripExt inname ++ webmExt) = true)
    (h2 : fs (stripExt inname ++ trimsharePart ++ strftimeYmdHMS now ++ webmExt) = true) :
    infer_out_video_name fs now none inname = .error .nameError := by
  simp only [infer_out_video_name]
  rw [infer_run_none, if_pos h1, if_pos h2]

/-- Witness for C3 on a fully occupied filesystem. -/
theorem c3_exhausted_witness :
    infer_out_video_name (fun _ => true) ⟨2001, 1, 1, 1, 1, 1⟩ none
      ("stuff.mkv".toList) = .error .nameError :=
  c3_exhausted (fun _ => true) ⟨2001, 1, 1, 1, 1, 1⟩ ("stuff.mkv".toList) rfl rfl

/-- C4: an explicit output name equal to the input name fails with
`FileExistsError` (NameCollision), for every filesystem state and clock. -/
theorem c4_collision (fs : FS) (now : DateTime) (o inname : Str) (h : o = inname) :
    infer_out_video_name fs now (some o) inname = .error .fileExistsError := by
  simp only [infer_out_video_name]
  rw [infer_run_some, if_pos h]

/-- Witness for C4 at the input of the test suite. -/
theorem c4_collision_witness :
    infer_out_video_name (fun _ => false) ⟨2001, 1, 1, 1, 1, 1⟩
      (some ("myvideo.webm".toList)) ("myvideo.webm".toList) = .error .fileExistsError :=
  c4_collision (fun _ => false) ⟨2001, 1, 1, 1, 1, 1⟩
    ("myvideo.webm".toList) ("myvideo.webm".toList) rfl

/-- C5: an explicit output name different from the input name is returned
unchanged, for every filesystem state and clock, and the call performs no
filesystem operation at all. -/
theorem c5_explicit (fs : FS) (now : DateTime) (o inname : Str) (h : o ≠ inname) :
    infer_out_video_name fs now (some o) inname = .ok o ∧
      (infer_run fs now (some o) inname).2 = [] := by
  constructor
  · simp only [infer_out_video_name]
    rw [infer_run_some, if_neg h]
  · rw [infer_run_some, if_neg h]

/-- Witness for C5 at the explicit name of the test suite. -/
theorem c5_explicit_witness :
    infer_out_video_name (fun _ => true) ⟨2001, 1, 1, 1, 1, 1⟩
      (some ("pwn3d.webm".toList)) ("myvideo.mp4".toList) = .ok ("pwn3d.webm".toList) :=
  (c5_explicit (fun _ => true) ⟨2001, 1, 1, 1, 1, 1⟩
    ("pwn3d.webm".toList) ("myvideo.mp4".toList) (by decide)).1

/-- C6 as stated is false: for the input `a.webm`, absent from the
filesystem, auto-generate mode returns exactly the input name. -/
theorem c6_counterexample :
    ¬ (∀ (fs : FS) (now : DateTime) (inname out : Str),
        infer_out_video_name fs now none inname = Except.ok out → out ≠ inname) :=
  fun h =>
    h (fun _ => false) ⟨2001, 1, 1, 1, 1, 1⟩ ("a.webm".toList) ("a.webm".toList) rfl rfl

/-- C6, amended: in auto-generate mode the returned name differs from the
input name except exactly when the primary candidate equals the input
(the input is already of the form `stem.webm`) and the input name does not
exist on the filesystem; in that remaining case the resolver returns the
input name itself. -/
theorem c6_amended_invariant (fs : FS) (now : DateTime) :
    (∀ inname out : Str,
      stripExt inname ++ webmExt ≠ inname ∨ fs inname = true →
      infer_out_video_name fs now none inname = .ok out → out ≠ inname)
    ∧ (∀ inname : Str,
      stripExt inname ++ webmExt = inname → fs inname = false →
      infer_out_video_name fs now none inname = .ok inname) := by
  constructor
  · intro inname out hsafe h
    simp only [infer_out_video_name] at h
    rw [infer_run_none] at h
    by_cases h1 : fs (stripExt inname ++ webmExt) = true
    · rw [if_pos h1] at h
      by_cases h2 :
          fs (stripExt inname ++ trimsharePart ++ strftimeYmdHMS now ++ webmExt) = true
      · rw [if_pos h2] at h
        exact absurd h (by simp)
      · rw [if_neg h2] at h
        have hout : stripExt inname ++ trimsharePart ++ strftimeYmdHMS now ++ webmExt = out := by
          simpa using h
        rw [← hout]
        exact fallback_ne_input inname (strftimeYmdHMS now)
    · rw [if_neg h1] at h
      have hout : stripExt inname ++ webmExt = out := by simpa using h
      rcases hsafe with hne | hfs
      · rw [← hout]
        exact hne
      · intro hbad
        apply h1
        rw [hout, hbad]
        exact hfs
  · intro inname hconv hfs
    simp only [infer_out_video_name]
    have h1 : ¬ (fs (stripExt inname ++ webmExt) = true) := by
      rw [hconv, hfs]
      decide
    rw [infer_run_none, if_neg h1]
    exact congrArg Except.ok hconv

/-- Witness for the amended C6: on an empty filesystem the invariant holds
at `b.mp4` (first clause) and fails only at the excluded shape `a.webm`,
where the input itself comes back (second clause). -/
theorem c6_amended_invariant_witness :
    (("b.webm".toList : Str) ≠ "b.mp4".toList)
    ∧ infer_out_video_name (fun _ => false) ⟨2001, 1, 1, 1, 1, 1⟩ none
        ("a.webm".toList) = .ok ("a.webm".toList) :=
  ⟨(c6_amended_invariant (fun _ => false) ⟨2001, 1, 1, 1, 1, 1⟩).1
      ("b.mp4".toList) ("b.webm".toList) (Or.inl (by decide)) rfl,
   (c6_amended_invariant (fun _ => false) ⟨2001, 1, 1, 1, 1, 1⟩).2
      ("a.webm".toList) (by decide) rfl⟩

/-- C8: on every input, filesystem state, clock and outcome, the resolver
performs only read-only existence checks, and replaying its operation
trace over the filesystem leaves the filesystem unchanged. -/
theorem c8_frame (fs : FS) (now : DateTime) (outname : Option Str) (inname : Str) :
    (infer_run fs now outname inname).2.foldl applyFsOp fs = fs ∧
      ∀ op ∈ (infer_run fs now outname inname).2, op.isRead = true :=
  ⟨trace_noop fs now outname inname, trace_all_reads fs now outname inname⟩

/-- C9: a second call with the same arguments and clock, run on the
filesystem as left behind by the first call, produces the identical
outcome (same result and same operation trace): resolution is a
deterministic function of its inputs, the snapshot and the clock. -/
theorem c9_idempotent (fs : FS) (now : DateTime) (outname : Option Str) (inname : Str) :
    infer_run ((infer_run fs now outname inname).2.foldl applyFsOp fs) now outname inname =
      infer_run fs now outname inname := by
  rw [trace_noop fs now outname inname]

/-- C10: in auto-generate mode, when the primary candidate does not exist,
the result does not depend on the clock: two runs at different clock
readings agree. -/
theorem c10_clock_independent (fs : FS) (inname : Str) (now1 now2 : DateTime)
    (h : fs (stripExt inname ++ webmExt) = false) :
    infer_out_video_name fs now1 none inname = infer_out_video_name fs now2 none inname := by
  simp only [infer_out_video_name]
  rw [infer_run_none, infer_run_none, if_neg (by simp [h]), if_neg (by simp [h])]

/-- Witness for C10 at two distant clock readings. -/
theorem c10_clock_independent_witness :
    infer_out_video_name (fun _ => false) ⟨2001, 1, 1, 1, 1, 1⟩ none ("clip.mkv".toList) =
      infer_out_video_name (fun _ => false) ⟨2024, 12, 31, 23, 59, 59⟩ none
        ("clip.mkv".toList) :=
  c10_clock_independent (fun _ => false) ("clip.mkv".toList)
    ⟨2001, 1, 1, 1, 1, 1⟩ ⟨2024, 12, 31, 23, 59, 59⟩ rfl

end TrimShare
